import Mathlib

/-!
Verification of the transcript-reconciliation and state-synchronization core of
the Health-Demo client.

The Transcript Reconciler is embedded from
`frontend/app/components/ChatPanel.tsx` (`processSegments`, `handleSendText`),
the State Synchronizer from
`frontend/app/components/RoomConnection.tsx` (`handleAttributesChanged`,
`handleStateChange`), and the snapshot view accessors from
`frontend/app/components/CalendarDashboard.tsx` together with the weakly-typed
`SessionState` record of `frontend/app/types.ts`.  The synchronizer decodes its
attribute payload with JavaScript `JSON.parse`; that decoder is embedded below
as a total, fuel-indexed JSON parser over the RFC 8259 grammar.
-/

/-! ## Transcript Reconciler: data model (ChatPanel.tsx, `Message`) -/

/-- The two speaker channels of the transcript (`role: "user" | "assistant"`). -/
inductive Role where
  | user
  | assistant
deriving DecidableEq, Repr

/-- One reconciled conversational turn (the `Message` interface of
`ChatPanel.tsx`): `{id, role, content, timestamp, isFinal}`.  The JS `Date`
timestamp is embedded as a `Nat` (milliseconds since the epoch). -/
structure Message where
  id : String
  role : Role
  content : String
  timestamp : Nat
  isFinal : Bool
deriving DecidableEq, Repr

instance : Inhabited Message :=
  ⟨{ id := "", role := Role.user, content := "", timestamp := 0, isFinal := false }⟩

/-- One speech-recognition segment event (`TranscriptionSegment`):
`{id, text, final}`. -/
structure Segment where
  id : String
  text : String
  final : Bool
deriving DecidableEq, Repr

/-- The whitespace characters stripped by JavaScript `String.prototype.trim`
(restricted to the code points that occur in practice: space, tab, line feed,
carriage return, vertical tab, form feed, no-break space, BOM). -/
def jsWhitespace (c : Char) : Bool :=
  ['\x20', '\x09', '\x0a', '\x0d', '\x0b', '\x0c', '\xa0', '\ufeff'].contains c

/-- JavaScript `String.prototype.trim`: strip leading and trailing whitespace. -/
def jsTrim (s : String) : String :=
  String.mk (((s.data.dropWhile jsWhitespace).reverse.dropWhile jsWhitespace).reverse)

/-- `newMessages.findIndex((m) => m.id === segment.id)` from `processSegments`
(ChatPanel.tsx:60-62), with JS's `-1` sentinel embedded as `none`. -/
def findIndexById (targetId : String) : List Message → Option Nat
  | [] => none
  | m :: rest =>
    if m.id == targetId then some 0
    else (findIndexById targetId rest).map (· + 1)

/-- The in-place update branch of `processSegments` (ChatPanel.tsx:63-68):
`newMessages[existingIndex] = {...newMessages[existingIndex], content:
segment.text, isFinal: segment.final}` — replace `content` and `isFinal` of the
first message whose id matches, keeping every other field and every other
message. -/
def updateById (seg : Segment) : List Message → List Message
  | [] => []
  | m :: rest =>
    if m.id == seg.id then
      { m with content := seg.text, isFinal := seg.final } :: rest
    else
      m :: updateById seg rest

/-- The body of the `segments.forEach` loop of `processSegments`
(ChatPanel.tsx:59-78), applied to one segment: update the existing message in
place if `findIndex` succeeds; otherwise append a fresh message, unless the
segment text is empty after trimming (`else if (segment.text.trim())`).  `now`
is the wall-clock value `new Date()` used for the `timestamp` field. -/
def applySegment (role : Role) (now : Nat) (msgs : List Message) (seg : Segment) :
    List Message :=
  if (findIndexById seg.id msgs).isSome then
    updateById seg msgs
  else if jsTrim seg.text == "" then
    msgs
  else
    msgs ++ [{ id := seg.id, role := role, content := seg.text, timestamp := now,
               isFinal := seg.final }]

/-- `processSegments(segments, role)` (ChatPanel.tsx:52-84): no-op on an empty
batch (`if (!segments || segments.length === 0) return`), otherwise fold the
per-segment step over the batch, left to right, starting from the previous
message log. -/
def processSegments (role : Role) (now : Nat) (segments : List Segment)
    (prev : List Message) : List Message :=
  if segments.isEmpty then prev
  else segments.foldl (applySegment role now) prev

/-- A whole session of segment batches: each entry carries the role-channel the
batch arrived on, the wall-clock time of the callback, and the batch itself
(the two `useEffect` hooks of ChatPanel.tsx:86-92 invoke `processSegments` once
per batch, interleaving the two channels in arrival order). -/
def applyBatches (batches : List (Role × Nat × List Segment))
    (msgs : List Message) : List Message :=
  batches.foldl (fun acc b => processSegments b.1 b.2.1 b.2.2 acc) msgs

/-- `handleSendText` (ChatPanel.tsx:109-126), restricted to its effect on the
message log: a no-op when the trimmed input is empty or the chat-send handle is
unavailable (`if (!textInput.trim() || !sendChat) return`), otherwise append
`{id: user-<Date.now()>, role: "user", content: textInput, timestamp: new
Date(), isFinal: true}`. -/
def handleSendText (sendChatAvailable : Bool) (textInput : String) (now : Nat)
    (prev : List Message) : List Message :=
  if jsTrim textInput == "" || !sendChatAvailable then prev
  else
    prev ++ [{ id := "user-" ++ toString now, role := Role.user,
               content := textInput, timestamp := now, isFinal := true }]

/-! ## State Synchronizer: the JSON decoder

`handleAttributesChanged` (RoomConnection.tsx:33-48) decodes the agent's
`state` attribute with JavaScript `JSON.parse`.  The decoder is embedded as a
total parser over the RFC 8259 grammar: values are null, booleans, numbers,
strings, arrays and objects.  Number lexemes are kept as raw strings (their
numeric value is never inspected by the client), which keeps the embedding
exact where floating-point would not be. -/

/-- A decoded JSON document.  Objects keep their members in source order,
duplicates included; field access resolves duplicates last-wins, as JS
property assignment does. -/
inductive Json where
  | null
  | bool (b : Bool)
  | num (lexeme : String)
  | str (s : String)
  | arr (elems : List Json)
  | obj (members : List (String × Json))

/-- The four JSON whitespace characters (RFC 8259 `ws`). -/
def jsonWs (c : Char) : Bool :=
  ['\x20', '\x09', '\x0a', '\x0d'].contains c

/-- Skip leading JSON whitespace. -/
def skipJsonWs : List Char → List Char
  | [] => []
  | c :: cs => if jsonWs c then skipJsonWs cs else c :: cs

/-- Value of a hexadecimal digit, if the character is one. -/
def hexVal (c : Char) : Option Nat :=
  let n := c.toNat
  if 0x30 ≤ n && n ≤ 0x39 then some (n - 0x30)
  else if 0x61 ≤ n && n ≤ 0x66 then some (n - 0x57)
  else if 0x41 ≤ n && n ≤ 0x46 then some (n - 0x37)
  else none

/-- The single-character string escapes of JSON. -/
def unescapeCh : Char → Option Char
  | '"' => some '"'
  | '\\' => some '\\'
  | '/' => some '/'
  | 'b' => some '\x08'
  | 'f' => some '\x0c'
  | 'n' => some '\n'
  | 'r' => some '\r'
  | 't' => some '\t'
  | _ => none

/-- Parse the body of a JSON string after the opening quote, processing
escapes; raw control characters below U+0020 are rejected, as `JSON.parse`
rejects them.  Structural on the remaining input. -/
def parseStringBody (acc : List Char) : List Char → Option (String × List Char)
  | '"' :: rest => some (String.mk acc.reverse, rest)
  | '\\' :: 'u' :: a :: b :: c :: d :: rest =>
    match hexVal a, hexVal b, hexVal c, hexVal d with
    | some va, some vb, some vc, some vd =>
      parseStringBody (Char.ofNat (((va * 16 + vb) * 16 + vc) * 16 + vd) :: acc) rest
    | _, _, _, _ => none
  | '\\' :: e :: rest =>
    match unescapeCh e with
    | some ch => parseStringBody (ch :: acc) rest
    | none => none
  | c :: rest =>
    if c.toNat < 32 then none else parseStringBody (c :: acc) rest
  | [] => none

/-- Parse a JSON number lexeme: `-? (0 | [1-9][0-9]*) (. [0-9]+)?
([eE] [+-]? [0-9]+)?`, returning the lexeme and the remaining input.  Leading
zeros are rejected, as `JSON.parse` rejects them. -/
def parseNumberLex (cs : List Char) : Option (String × List Char) :=
  let (neg, cs1) := match cs with
    | '-' :: r => (true, r)
    | _ => (false, cs)
  let intPart : Option (List Char × List Char) :=
    match cs1 with
    | '0' :: r => some (['0'], r)
    | c :: _ =>
      if c.isDigit then some (cs1.takeWhile Char.isDigit, cs1.dropWhile Char.isDigit)
      else none
    | [] => none
  match intPart with
  | none => none
  | some (ids, cs2) =>
    let fracPart : Option (List Char × List Char) :=
      match cs2 with
      | '.' :: r =>
        let ds := r.takeWhile Char.isDigit
        if ds.isEmpty then none else some ('.' :: ds, r.dropWhile Char.isDigit)
      | _ => some ([], cs2)
    match fracPart with
    | none => none
    | some (fds, cs3) =>
      let expPart : Option (List Char × List Char) :=
        match cs3 with
        | e :: r =>
          if e == 'e' || e == 'E' then
            let (sgn, r1) := match r with
              | '+' :: r2 => ((['+'] : List Char), r2)
              | '-' :: r2 => ((['-'] : List Char), r2)
              | _ => (([] : List Char), r)
            let ds := r1.takeWhile Char.isDigit
            if ds.isEmpty then none
            else some (e :: (sgn ++ ds), r1.dropWhile Char.isDigit)
          else some ([], cs3)
        | [] => some ([], cs3)
      match expPart with
      | none => none
      | some (eds, cs4) =>
        some (String.mk ((if neg then ['-'] else []) ++ ids ++ fds ++ eds), cs4)

mutual

/-- Parse one JSON value (after skipping leading whitespace).  Structural on
the fuel argument; `jsonParse` supplies fuel ample for its input, so the fuel
never runs out on a successful parse. -/
def parseJsonValue : Nat → List Char → Option (Json × List Char)
  | 0, _ => none
  | f + 1, cs =>
    match skipJsonWs cs with
    | 't' :: 'r' :: 'u' :: 'e' :: r => some (Json.bool true, r)
    | 'f' :: 'a' :: 'l' :: 's' :: 'e' :: r => some (Json.bool false, r)
    | 'n' :: 'u' :: 'l' :: 'l' :: r => some (Json.null, r)
    | '"' :: r =>
      match parseStringBody [] r with
      | some (s, r1) => some (Json.str s, r1)
      | none => none
    | '[' :: r =>
      match skipJsonWs r with
      | ']' :: r1 => some (Json.arr [], r1)
      | r1 =>
        match parseJsonElems f r1 with
        | some (es, r2) => some (Json.arr es, r2)
        | none => none
    | '\x7b' :: r =>
      match skipJsonWs r with
      | '\x7d' :: r1 => some (Json.obj [], r1)
      | r1 =>
        match parseJsonMembers f r1 with
        | some (ms, r2) => some (Json.obj ms, r2)
        | none => none
    | cs1 =>
      match parseNumberLex cs1 with
      | some (lex, r1) => some (Json.num lex, r1)
      | none => none

/-- Parse one or more comma-separated array elements followed by `]`. -/
def parseJsonElems : Nat → List Char → Option (List Json × List Char)
  | 0, _ => none
  | f + 1, cs =>
    match parseJsonValue f cs with
    | none => none
    | some (v, r) =>
      match skipJsonWs r with
      | ',' :: r1 =>
        match parseJsonElems f r1 with
        | some (vs, r2) => some (v :: vs, r2)
        | none => none
      | ']' :: r1 => some ([v], r1)
      | _ => none

/-- Parse one or more comma-separated object members followed by the closing
brace. -/
def parseJsonMembers : Nat → List Char → Option (List (String × Json) × List Char)
  | 0, _ => none
  | f + 1, cs =>
    match skipJsonWs cs with
    | '"' :: r =>
      match parseStringBody [] r with
      | none => none
      | some (key, r1) =>
        match skipJsonWs r1 with
        | ':' :: r2 =>
          match parseJsonValue f r2 with
          | none => none
          | some (v, r3) =>
            match skipJsonWs r3 with
            | ',' :: r4 =>
              match parseJsonMembers f r4 with
              | some (ms, r5) => some ((key, v) :: ms, r5)
              | none => none
            | '\x7d' :: r4 => some ([(key, v)], r4)
            | _ => none
        | _ => none
    | _ => none

end

/-- JavaScript `JSON.parse`, embedded: parse a complete document and reject
trailing non-whitespace characters; `none` is a thrown `SyntaxError`.  The
fuel `2 * length + 2` dominates the length of any chain of recursive calls, so
it is never the reason a parse fails. -/
def jsonParse (s : String) : Option Json :=
  match parseJsonValue (2 * s.data.length + 2) s.data with
  | some (j, r) => if (skipJsonWs r).isEmpty then some j else none
  | none => none

/-! ## State Synchronizer: snapshot ingestion and materialized view -/

/-- `handleAttributesChanged` (RoomConnection.tsx:33-48) composed with
`handleStateChange` (RoomConnection.tsx:98-100): find the agent participant;
read its `state` attribute (`attrState`, `none` when absent); if the raw string
is undefined or empty (`if (stateStr)`), do nothing; otherwise `JSON.parse` it
and, on success, publish the decoded snapshot via
`onStateChange`/`setSessionState`, fully replacing the previous one; on a parse
error, catch it, log it, and keep the previous snapshot. -/
def handleAttributesChanged (agentPresent : Bool) (attrState : Option String)
    (prev : Option Json) : Option Json :=
  if !agentPresent then prev
  else
    match attrState with
    | none => prev
    | some raw =>
      if raw == "" then prev
      else
        match jsonParse raw with
        | some state => some state
        | none => prev

/-- JS property access on a decoded JSON object (`state.calendarEvents` after
`JSON.parse(stateStr) as SessionState`): `none` when the document is not an
object or lacks the field; duplicate keys resolve last-wins as in
`JSON.parse`. -/
def Json.getField (j : Json) (name : String) : Option Json :=
  match j with
  | Json.obj members => (members.reverse.find? (fun kv => kv.1 == name)).map (fun kv => kv.2)
  | _ => none

/-- The defensive list-field read of the dashboard (CalendarDashboard.tsx:
252-260): `state.bookedFlights || []` and friends — the field's array when the
snapshot carries one, the empty list when the field is absent (or not an
array, e.g. `null`). -/
def fieldOrEmpty (state : Json) (name : String) : List Json :=
  match state.getField name with
  | some (Json.arr xs) => xs
  | _ => []

/-! ## Helper lemmas: the in-place update -/

/-- An in-place update never changes the sequence of message ids. -/
theorem updateById_map_id (seg : Segment) (msgs : List Message) :
    (updateById seg msgs).map Message.id = msgs.map Message.id := by
  induction msgs with
  | nil => rfl
  | cons m rest ih =>
    by_cases h : m.id == seg.id
    · simp [updateById, h]
    · simp [updateById, h, ih]

/-- `findIndex` sees the same ids before and after an in-place update. -/
theorem findIndexById_updateById (seg : Segment) (tid : String) (msgs : List Message) :
    findIndexById tid (updateById seg msgs) = findIndexById tid msgs := by
  induction msgs with
  | nil => rfl
  | cons m rest ih =>
    by_cases h : m.id == seg.id
    · simp [updateById, h, findIndexById]
    · simp [updateById, h, findIndexById, ih]

/-- Updating twice with the same segment is the same as updating once. -/
theorem updateById_idem (seg : Segment) (msgs : List Message) :
    updateById seg (updateById seg msgs) = updateById seg msgs := by
  induction msgs with
  | nil => rfl
  | cons m rest ih =>
    by_cases h : m.id == seg.id
    · simp [updateById, h]
    · simp [updateById, h, ih]

/-- `findIndex` misses exactly when no message carries the id. -/
theorem findIndexById_eq_none (tid : String) (msgs : List Message) :
    findIndexById tid msgs = none ↔ ∀ m ∈ msgs, m.id ≠ tid := by
  induction msgs with
  | nil => simp [findIndexById]
  | cons m rest ih =>
    by_cases h : m.id = tid
    · simp [findIndexById, h]
    · have hb : (m.id == tid) = false := by simpa using h
      simp [findIndexById, hb, h, ih]

/-- An in-place update passes unchanged over a prefix that does not carry the
segment's id. -/
theorem updateById_append_left (seg : Segment) (l1 l2 : List Message)
    (h : ∀ m ∈ l1, m.id ≠ seg.id) :
    updateById seg (l1 ++ l2) = l1 ++ updateById seg l2 := by
  induction l1 with
  | nil => rfl
  | cons m rest ih =>
    have hm : m.id ≠ seg.id := h m (by simp)
    have hb : (m.id == seg.id) = false := by simpa using hm
    have ih' := ih (fun x hx => h x (by simp [hx]))
    simp [updateById, hb, ih']

/-- `findIndex` over an appended log hits iff it hits in either half. -/
theorem findIndexById_isSome_append (tid : String) (l1 l2 : List Message) :
    (findIndexById tid (l1 ++ l2)).isSome =
      ((findIndexById tid l1).isSome || (findIndexById tid l2).isSome) := by
  induction l1 with
  | nil => simp [findIndexById]
  | cons m rest ih =>
    by_cases h : m.id == tid
    · simp [findIndexById, h]
    · simp [findIndexById, h, ih]

/-- What the in-place update branch does, exactly: the log splits at the first
matching index; the prefix and the suffix survive verbatim, and the matched
message keeps every field except `content` and `isFinal`. -/
theorem updateById_eq_take_drop (seg : Segment) :
    ∀ (msgs : List Message) (j : Nat) (m : Message),
      findIndexById seg.id msgs = some j → msgs[j]? = some m →
      updateById seg msgs =
        msgs.take j ++
          { m with content := seg.text, isFinal := seg.final } :: msgs.drop (j + 1)
  | [], j, m, hj, _ => by simp [findIndexById] at hj
  | m0 :: rest, j, m, hj, hm => by
    by_cases h : m0.id == seg.id
    · simp only [findIndexById, h, if_pos, Option.some.injEq] at hj
      subst hj
      simp only [List.getElem?_cons_zero, Option.some.injEq] at hm
      subst hm
      simp [updateById, h]
    · simp only [findIndexById, h, Bool.false_eq_true, if_neg, not_false_iff,
        Option.map_eq_some'] at hj
      obtain ⟨j', hj', rfl⟩ := hj
      simp only [List.getElem?_cons_succ] at hm
      simp only [updateById, h, Bool.false_eq_true, if_neg, not_false_iff,
        List.take_succ_cons, List.drop_succ_cons, List.cons_append]
      rw [updateById_eq_take_drop seg rest j' m hj' hm]

/-! ## Helper lemmas: insertion-order stability -/

/-- One segment application only ever extends the id sequence at the end. -/
theorem applySegment_map_id (role : Role) (now : Nat) (msgs : List Message)
    (seg : Segment) :
    ∃ t, (applySegment role now msgs seg).map Message.id =
      msgs.map Message.id ++ t := by
  unfold applySegment
  by_cases h : (findIndexById seg.id msgs).isSome
  · exact ⟨[], by simp [h, updateById_map_id]⟩
  · by_cases he : jsTrim seg.text == ""
    · exact ⟨[], by simp [h, he]⟩
    · exact ⟨[seg.id], by simp [h, he]⟩

/-- A left fold of steps that only extend the id sequence only extends the id
sequence. -/
theorem foldl_map_id_extends {β : Type} (f : List Message → β → List Message)
    (hf : ∀ l b, ∃ t, (f l b).map Message.id = l.map Message.id ++ t) :
    ∀ (bs : List β) (l : List Message),
      ∃ t, (bs.foldl f l).map Message.id = l.map Message.id ++ t := by
  intro bs
  induction bs with
  | nil => exact fun l => ⟨[], by simp⟩
  | cons b rest ih =>
    intro l
    obtain ⟨t1, ht1⟩ := hf l b
    obtain ⟨t2, ht2⟩ := ih (f l b)
    exact ⟨t1 ++ t2, by simp [List.foldl_cons, ht2, ht1]⟩

/-- A segment batch only ever extends the id sequence at the end. -/
theorem processSegments_map_id (role : Role) (now : Nat) (segments : List Segment)
    (prev : List Message) :
    ∃ t, (processSegments role now segments prev).map Message.id =
      prev.map Message.id ++ t := by
  unfold processSegments
  by_cases h : segments.isEmpty
  · exact ⟨[], by simp [h]⟩
  · simpa [h] using
      foldl_map_id_extends (applySegment role now) (applySegment_map_id role now)
        segments prev

/-- A whole session of batches only ever extends the id sequence at the end. -/
theorem applyBatches_map_id (batches : List (Role × Nat × List Segment))
    (msgs : List Message) :
    ∃ t, (applyBatches batches msgs).map Message.id =
      msgs.map Message.id ++ t := by
  unfold applyBatches
  exact foldl_map_id_extends (fun acc b => processSegments b.1 b.2.1 b.2.2 acc)
    (fun l b => processSegments_map_id b.1 b.2.1 b.2.2 l) batches msgs

/-! ## Helper lemmas: idempotence and decode success -/

/-- Applying the same segment twice (at any pair of wall-clock times) is the
same as applying it once. -/
theorem applySegment_idem (role : Role) (now now2 : Nat) (msgs : List Message)
    (seg : Segment) :
    applySegment role now2 (applySegment role now msgs seg) seg =
      applySegment role now msgs seg := by
  cases hfi : findIndexById seg.id msgs with
  | some j =>
    have h1 : applySegment role now msgs seg = updateById seg msgs := by
      simp [applySegment, hfi]
    have h2 : findIndexById seg.id (updateById seg msgs) = some j := by
      rw [findIndexById_updateById, hfi]
    rw [h1]
    simp [applySegment, h2, updateById_idem]
  | none =>
    by_cases ht : jsTrim seg.text == ""
    · have h1 : applySegment role now msgs seg = msgs := by
        simp [applySegment, hfi, ht]
      rw [h1]
      simp [applySegment, hfi, ht]
    · have h1 : applySegment role now msgs seg =
          msgs ++ [{ id := seg.id, role := role, content := seg.text,
                     timestamp := now, isFinal := seg.final }] := by
        simp [applySegment, hfi, ht]
      have hfresh : findIndexById seg.id
          [({ id := seg.id, role := role, content := seg.text, timestamp := now,
              isFinal := seg.final } : Message)] = some 0 := by
        simp [findIndexById]
      have hsome : (findIndexById seg.id (msgs ++
          [({ id := seg.id, role := role, content := seg.text, timestamp := now,
              isFinal := seg.final } : Message)])).isSome := by
        rw [findIndexById_isSome_append]
        simp [hfi, hfresh]
      rw [h1]
      rw [applySegment, if_pos hsome]
      rw [updateById_append_left seg msgs _ ((findIndexById_eq_none _ _).mp hfi)]
      simp [updateById]

/-- A decode success always replaces the previous snapshot wholesale. -/
theorem handleAttributesChanged_decode_success (s : String) (j : Json)
    (prev : Option Json) (hparse : jsonParse s = some j) :
    handleAttributesChanged true (some s) prev = some j := by
  by_cases he : s = ""
  · subst he
    have h0 : jsonParse "" = none := by rfl
    rw [h0] at hparse
    exact absurd hparse (by simp)
  · have hb : (s == "") = false := by simpa using he
    simp [handleAttributesChanged, hb, hparse]

/-! ## The claims -/

/-- C1, counterexample: `processSegments` has no monotonicity clamp on
`isFinal`.  Starting from a log holding the final turn
`{id: "a", content: "hi", isFinal: true}`, applying the contradicting revision
`{id: "a", text: "bye", final: false}` reverts `isFinal` to `false` and
replaces the final content — the claimed invariant fails on the code. -/
theorem c1_counterexample :
    applySegment Role.user 1
      [{ id := "a", role := Role.user, content := "hi", timestamp := 0,
         isFinal := true }]
      { id := "a", text := "bye", final := false } =
      [{ id := "a", role := Role.user, content := "bye", timestamp := 0,
         isFinal := false }] := by
  decide

/-- C1, amended: an update to an existing Turn replaces its `content` and
`isFinal` with the incoming segment's values unconditionally — `isFinal` is not
monotonic, and a contradicting revision after `final=true` both reverts the
flag and overwrites the previously final content. -/
theorem c1_amended_update_overwrites_final (role : Role) (now : Nat)
    (msgs : List Message) (seg : Segment) (j : Nat) (m : Message)
    (hj : findIndexById seg.id msgs = some j) (hm : msgs[j]? = some m) :
    ((applySegment role now msgs seg)[j]?).map Message.content = some seg.text ∧
    ((applySegment role now msgs seg)[j]?).map Message.isFinal = some seg.final := by
  have hsome : (findIndexById seg.id msgs).isSome := by simp [hj]
  have hres : applySegment role now msgs seg =
      msgs.take j ++
        { m with content := seg.text, isFinal := seg.final } :: msgs.drop (j + 1) := by
    rw [applySegment, if_pos hsome]
    exact updateById_eq_take_drop seg msgs j m hj hm
  have hjlt : j < msgs.length := (List.getElem?_eq_some.mp hm).1
  have htake : (msgs.take j).length = j := by
    simp [List.length_take]
    omega
  have hat : (applySegment role now msgs seg)[j]? =
      some { m with content := seg.text, isFinal := seg.final } := by
    rw [hres, List.getElem?_append_right (by omega), htake]
    simp
  rw [hat]
  exact ⟨rfl, rfl⟩

/-- C1, witness for the amended theorem at a concrete input. -/
theorem c1_witness :
    ((applySegment Role.user 3
        [{ id := "a", role := Role.user, content := "hi", timestamp := 0,
           isFinal := true }]
        { id := "a", text := "bye", final := false })[0]?).map Message.content =
      some "bye" ∧
    ((applySegment Role.user 3
        [{ id := "a", role := Role.user, content := "hi", timestamp := 0,
           isFinal := true }]
        { id := "a", text := "bye", final := false })[0]?).map Message.isFinal =
      some false :=
  c1_amended_update_overwrites_final Role.user 3
    [{ id := "a", role := Role.user, content := "hi", timestamp := 0,
       isFinal := true }]
    { id := "a", text := "bye", final := false } 0
    { id := "a", role := Role.user, content := "hi", timestamp := 0,
      isFinal := true }
    (by decide) (by decide)

/-- C2: segment application is idempotent — for every log state and segment,
applying the same `{id, text, final}` segment twice (even at different
wall-clock times) yields the log of applying it once, both at the level of the
per-segment step and of a `processSegments` batch. -/
theorem c2_segment_application_idempotent (role : Role) (now now2 : Nat)
    (msgs : List Message) (seg : Segment) :
    applySegment role now2 (applySegment role now msgs seg) seg =
      applySegment role now msgs seg ∧
    processSegments role now [seg, seg] msgs = processSegments role now [seg] msgs := by
  refine ⟨applySegment_idem role now now2 msgs seg, ?_⟩
  simp only [processSegments, List.isEmpty_cons, Bool.false_eq_true, if_neg,
    not_false_iff, List.foldl_cons, List.foldl_nil]
  exact applySegment_idem role now now msgs seg

/-- C3: insertion-order stability — over any sequence of segment batches across
the two roles, the log only ever grows at the end: its first `msgs.length` ids
are exactly the ids of the starting log, in order, so the index of every Turn
is fixed at the moment it is first created and later applications never reorder
existing Turns. -/
theorem c3_insertion_order_stability (batches : List (Role × Nat × List Segment))
    (msgs : List Message) :
    msgs.length ≤ (applyBatches batches msgs).length ∧
    ((applyBatches batches msgs).map Message.id).take msgs.length =
      msgs.map Message.id := by
  obtain ⟨t, ht⟩ := applyBatches_map_id batches msgs
  constructor
  · have hlen := congrArg List.length ht
    simp only [List.length_map, List.length_append] at hlen
    omega
  · rw [ht]
    exact List.take_left' (by simp)

/-- C4: malformed-update resilience — with any snapshot held and an attribute
update whose raw string fails to decode as JSON, the synchronizer keeps the
previous snapshot unchanged (the failure is only logged). -/
theorem c4_malformed_update_retains_snapshot (a : Json) (s : String)
    (hfail : jsonParse s = none) :
    handleAttributesChanged true (some s) (some a) = some a := by
  by_cases he : s = ""
  · subst he
    rfl
  · have hb : (s == "") = false := by simpa using he
    simp [handleAttributesChanged, hb, hfail]

/-- C4, witness: the undecodable raw string `"{not json"` leaves the previously
decoded snapshot in place. -/
theorem c4_witness :
    jsonParse "\x7bnot json" = none ∧
    handleAttributesChanged true (some "\x7bnot json")
        (some (Json.obj [("consented", Json.bool true)])) =
      some (Json.obj [("consented", Json.bool true)]) :=
  ⟨by rfl,
   c4_malformed_update_retains_snapshot (Json.obj [("consented", Json.bool true)])
     "\x7bnot json" (by rfl)⟩

/-- C5: snapshot application is replace-not-merge — whatever snapshot was held
before, after an update whose raw string decodes to `b` the materialized state
is exactly `b`; nothing of the previous snapshot survives. -/
theorem c5_snapshot_replace_not_merge (a b : Json) (s : String)
    (hparse : jsonParse s = some b) :
    handleAttributesChanged true (some s) (some a) = some b :=
  handleAttributesChanged_decode_success s b (some a) hparse

/-- C5, witness: a fresh snapshot wholly replaces a previous one carrying an
unrelated field. -/
theorem c5_witness :
    jsonParse "\x7b\"calendarEvents\":[]\x7d" =
      some (Json.obj [("calendarEvents", Json.arr [])]) ∧
    handleAttributesChanged true (some "\x7b\"calendarEvents\":[]\x7d")
        (some (Json.obj [("stale", Json.str "old")])) =
      some (Json.obj [("calendarEvents", Json.arr [])]) :=
  ⟨by rfl,
   c5_snapshot_replace_not_merge (Json.obj [("stale", Json.str "old")])
     (Json.obj [("calendarEvents", Json.arr [])])
     "\x7b\"calendarEvents\":[]\x7d" (by rfl)⟩

/-- C6: a raw string that is valid JSON but omits a top-level list-valued field
still decodes successfully — the snapshot is published — and the dashboard's
defensive read (`state.<field> || []`) materializes the missing field as the
empty sequence. -/
theorem c6_missing_list_field_defaults_empty (s : String) (j : Json)
    (name : String) (prev : Option Json) (hparse : jsonParse s = some j)
    (hmissing : j.getField name = none) :
    handleAttributesChanged true (some s) prev = some j ∧
    fieldOrEmpty j name = [] := by
  refine ⟨handleAttributesChanged_decode_success s j prev hparse, ?_⟩
  simp [fieldOrEmpty, hmissing]

/-- C6, witness: a snapshot carrying only `bookedFlights` decodes, and its
missing `calendarEvents` field reads back as the empty list. -/
theorem c6_witness :
    jsonParse "\x7b\"bookedFlights\":[]\x7d" =
      some (Json.obj [("bookedFlights", Json.arr [])]) ∧
    (Json.obj [("bookedFlights", Json.arr [])]).getField "calendarEvents" = none ∧
    (handleAttributesChanged true (some "\x7b\"bookedFlights\":[]\x7d") none =
        some (Json.obj [("bookedFlights", Json.arr [])]) ∧
      fieldOrEmpty (Json.obj [("bookedFlights", Json.arr [])]) "calendarEvents" = []) :=
  ⟨by rfl, by rfl,
   c6_missing_list_field_defaults_empty "\x7b\"bookedFlights\":[]\x7d"
     (Json.obj [("bookedFlights", Json.arr [])]) "calendarEvents" none
     (by rfl) (by rfl)⟩

/-- C7: empty-interim suppression — a segment whose text is empty or
whitespace-only and whose id has no existing Turn leaves the log unchanged. -/
theorem c7_empty_interim_suppression (role : Role) (now : Nat)
    (msgs : List Message) (seg : Segment)
    (hno : ∀ m ∈ msgs, m.id ≠ seg.id) (hempty : jsTrim seg.text = "") :
    applySegment role now msgs seg = msgs := by
  have hfi : findIndexById seg.id msgs = none := (findIndexById_eq_none _ _).mpr hno
  simp [applySegment, hfi, hempty]

/-- C7, witness: a whitespace-only segment with a fresh id creates no Turn. -/
theorem c7_witness :
    jsTrim " \t " = "" ∧
    applySegment Role.assistant 7
      [{ id := "a", role := Role.user, content := "hi", timestamp := 0,
         isFinal := false }]
      { id := "b", text := " \t ", final := false } =
      [{ id := "a", role := Role.user, content := "hi", timestamp := 0,
         isFinal := false }] :=
  ⟨by decide,
   c7_empty_interim_suppression Role.assistant 7
     [{ id := "a", role := Role.user, content := "hi", timestamp := 0,
        isFinal := false }]
     { id := "b", text := " \t ", final := false }
     (by decide) (by decide)⟩

/-- C8, counterexample: not every invocation of `handleSendText` inserts a
Turn — with whitespace-only input (and the chat-send handle available) the
guard `if (!textInput.trim() || !sendChat) return` makes the call a no-op and
the log stays empty, so no already-final user Turn is inserted. -/
theorem c8_counterexample : handleSendText true "   " 5 [] = [] := by
  decide

/-- C8, amended: every invocation of `handleSendText` whose input is non-empty
after trimming (and with the chat-send handle available) appends the typed
text as an already-final Turn — `isFinal = true`, role `user`, and the fresh
id `user-<Date.now()>` derived from the current time, a namespace disjoint
from the transcription segments' id space. -/
theorem c8_nonempty_text_appends_final_turn (textInput : String) (now : Nat)
    (msgs : List Message) (h : jsTrim textInput ≠ "") :
    handleSendText true textInput now msgs =
      msgs ++ [{ id := "user-" ++ toString now, role := Role.user,
                 content := textInput, timestamp := now, isFinal := true }] := by
  have hb : (jsTrim textInput == "") = false := by simpa using h
  simp [handleSendText, hb]

/-- C8, witness: sending `"hello"` at time 42 appends the final user Turn with
id `user-42`. -/
theorem c8_witness :
    jsTrim "hello" ≠ "" ∧
    handleSendText true "hello" 42 [] =
      [{ id := "user-42", role := Role.user, content := "hello", timestamp := 42,
         isFinal := true }] :=
  ⟨by decide, by
    rw [c8_nonempty_text_appends_final_turn "hello" 42 [] (by decide)]
    rfl⟩

/-- C9: an attribute-change notification whose raw state string is undefined or
empty is a no-op — the materialized session state is left exactly as it was,
never cleared. -/
theorem c9_undefined_or_empty_raw_noop (prev : Option Json) :
    handleAttributesChanged true none prev = prev ∧
    handleAttributesChanged true (some "") prev = prev :=
  ⟨rfl, rfl⟩

/-- C10: frame property of the in-place update — when a segment's id matches
the Turn at index `j`, applying it rewrites the log to: the unchanged prefix
before `j`, the matched Turn with only `content` and `isFinal` replaced (its
`id`, `role` and `timestamp` fields kept), and the unchanged suffix after
`j`. -/
theorem c10_inplace_update_frame (role : Role) (now : Nat)
    (msgs : List Message) (seg : Segment) (j : Nat) (m : Message)
    (hj : findIndexById seg.id msgs = some j) (hm : msgs[j]? = some m) :
    applySegment role now msgs seg =
      msgs.take j ++
        { id := m.id, role := m.role, content := seg.text,
          timestamp := m.timestamp, isFinal := seg.final } :: msgs.drop (j + 1) := by
  have hsome : (findIndexById seg.id msgs).isSome := by simp [hj]
  rw [applySegment, if_pos hsome]
  exact updateById_eq_take_drop seg msgs j m hj hm

/-- C10, witness: updating the second of two Turns in place leaves the first
Turn and the matched Turn's identity fields untouched. -/
theorem c10_witness :
    applySegment Role.user 9
      [{ id := "a", role := Role.user, content := "hi", timestamp := 0,
         isFinal := true },
       { id := "b", role := Role.assistant, content := "one", timestamp := 3,
         isFinal := false }]
      { id := "b", text := "one two", final := true } =
      [{ id := "a", role := Role.user, content := "hi", timestamp := 0,
         isFinal := true },
       { id := "b", role := Role.assistant, content := "one", timestamp := 3,
         isFinal := false }].take 1 ++
        { id := "b", role := Role.assistant, content := "one two",
          timestamp := 3, isFinal := true } ::
          [{ id := "a", role := Role.user, content := "hi", timestamp := 0,
             isFinal := true },
           { id := "b", role := Role.assistant, content := "one", timestamp := 3,
             isFinal := false }].drop 2 :=
  c10_inplace_update_frame Role.user 9
    [{ id := "a", role := Role.user, content := "hi", timestamp := 0,
       isFinal := true },
     { id := "b", role := Role.assistant, content := "one", timestamp := 3,
       isFinal := false }]
    { id := "b", text := "one two", final := true } 1
    { id := "b", role := Role.assistant, content := "one", timestamp := 3,
      isFinal := false }
    (by decide) (by decide)
